import Mathlib

/-!
Verification of the HSK SSC driver header (`src/hsk_ssc/hsk_ssc.h`).

The repository ships only the header: the configuration macros `SSC_BAUD` and
`SSC_CONF`, the `SSC_MRST_*` / `SSC_MTSR_*` / `SSC_SCLK_*` port constants, and
the declarations of `hsk_ssc_init`, `hsk_ssc_ports`, `hsk_ssc_talk`,
`hsk_ssc_enable` and `hsk_ssc_disable` (the implementation file is not part of
the repository).  The macros and constants below are embedded directly from the
header; the transceive engine and the lifecycle controller are modelled from
the specification, as marked on their definitions.

Machine model (XC878 / SDCC target): `unsigned long` is 32 bits, `uword` is
16 bits, `ubyte` is 8 bits, `int` is 16 bits.  Unsigned arithmetic wraps
modulo the type width, so a C expression of type `unsigned long` is embedded
as `Nat` arithmetic reduced `% 4294967296`, and the `(uword)` cast as a
further `% 65536`.
-/

namespace HskSsc

/-- Header constant `SSC_MRST_P05 = 1`: master-mode RX / slave-mode TX on P0.5. -/
def SSC_MRST_P05 : Nat := 1

/-- Header constant `SSC_MRST_P14 = 0`: master-mode RX / slave-mode TX on P1.4. -/
def SSC_MRST_P14 : Nat := 0

/-- Header constant `SSC_MRST_P15 = 2`: master-mode RX / slave-mode TX on P1.5. -/
def SSC_MRST_P15 : Nat := 2

/-- Header constant `SSC_MTSR_P04 = (1 << 2)`: master-mode TX / slave-mode RX on P0.4. -/
def SSC_MTSR_P04 : Nat := 1 <<< 2

/-- Header constant `SSC_MTSR_P13 = (0 << 2)`: master-mode TX / slave-mode RX on P1.3. -/
def SSC_MTSR_P13 : Nat := 0 <<< 2

/-- Header constant `SSC_MTSR_P14 = (2 << 2)`: master-mode TX / slave-mode RX on P1.4. -/
def SSC_MTSR_P14 : Nat := 2 <<< 2

/-- Header constant `SSC_SCLK_P03 = (1 << 4)`: shift clock on P0.3. -/
def SSC_SCLK_P03 : Nat := 1 <<< 4

/-- Header constant `SSC_SCLK_P12 = (0 << 4)`: shift clock on P1.2. -/
def SSC_SCLK_P12 : Nat := 0 <<< 4

/-- Header constant `SSC_SCLK_P13 = (2 << 4)`: shift clock on P1.3. -/
def SSC_SCLK_P13 : Nat := 2 <<< 4

/-- The three `SSC_MRST_*` codes, in header order of the role. -/
def sscMrstCodes : List Nat := [SSC_MRST_P05, SSC_MRST_P14, SSC_MRST_P15]

/-- The three `SSC_MTSR_*` codes. -/
def sscMtsrCodes : List Nat := [SSC_MTSR_P04, SSC_MTSR_P13, SSC_MTSR_P14]

/-- The three `SSC_SCLK_*` codes. -/
def sscSclkCodes : List Nat := [SSC_SCLK_P03, SSC_SCLK_P12, SSC_SCLK_P13]

/-- Embedding of the header macro
`#define SSC_BAUD(bps) (uword)(12000000ul / (bps) - 1)`.

The division and subtraction happen in 32-bit `unsigned long` (so `0 - 1`
wraps to `0xFFFFFFFF`), and the `(uword)` cast truncates to 16 bits.  With
`q = 12000000 / bps`, the value `q - 1` computed modulo `2^32` is
`(q + 2^32 - 1) % 2^32`. -/
def SSC_BAUD (bps : Nat) : Nat :=
  ((12000000 / bps + 4294967295) % 4294967296) % 65536

/-- Embedding of the header macro
`#define SSC_CONF(width, heading, phase, polarity, duplex)
  (((width) - 1) | ((heading) << 4) | ((phase) << 5) | ((polarity) << 6) | ((duplex) << 7))`.

C `int` arithmetic on the documented domain (`width >= 1`, flag arguments in
`{0,1}`) never goes negative or overflows 16 bits, so plain `Nat` arithmetic
is faithful there. -/
def SSC_CONF (width heading phase polarity duplex : Nat) : Nat :=
  (width - 1) ||| (heading <<< 4) ||| (phase <<< 5) ||| (polarity <<< 6) ||| (duplex <<< 7)

/-- Specification-side checked baud encoder, written from the spec's words
(§4.1): the divisor is `floor(12000000 / bps) - 1`; the encoder fails if the
divisor would exceed the 16-bit counter range or if `bps` exceeds the
mode-dependent ceiling (12 Mbit/s in master mode, 6 Mbit/s in slave mode).
Used only to compare the spec's error contract against the header macro. -/
def encodeBaudSpec (bps : Nat) (master : Bool) : Option Nat :=
  let divisor := 12000000 / bps - 1
  if 65535 < divisor ∨ (if master then 12000000 else 6000000) < bps then
    none
  else
    some divisor

/-- Specification-side checked frame encoder, written from the spec's words
(§3, §4.1): `width - 1` is stored in the low bits and each remaining field
occupies one flag bit above it (heading at bit 4, phase at bit 5, polarity at
bit 6, duplex at bit 7); the encoder fails for `width` outside `[2, 8]`.
Used only to compare the spec's error contract against the header macro. -/
def encodeFrameSpec (width heading phase polarity duplex : Nat) : Option Nat :=
  if 2 ≤ width ∧ width ≤ 8 then
    some ((width - 1) + 16 * heading + 32 * phase + 64 * polarity + 128 * duplex)
  else
    none

/-- On the no-wrap range `184 ≤ bps ≤ 12000000` the macro value is exactly the
untruncated divisor `floor(12000000 / bps) - 1`. -/
lemma SSC_BAUD_eq_of_le (bps : Nat) (h1 : 184 ≤ bps) (h2 : bps ≤ 12000000) :
    SSC_BAUD bps = 12000000 / bps - 1 := by
  have hb : 0 < bps := by omega
  have hq1 : 1 ≤ 12000000 / bps := (Nat.one_le_div_iff hb).mpr h2
  have hq2 : 12000000 / bps ≤ 12000000 / 184 := Nat.div_le_div_left h1 (by omega)
  norm_num at hq2
  unfold SSC_BAUD
  generalize 12000000 / bps = q at hq1 hq2 ⊢
  omega

/-- For any `1 ≤ bps ≤ 12000000` the macro value is the untruncated divisor
reduced modulo `2^16`. -/
lemma SSC_BAUD_mod (bps : Nat) (h1 : 1 ≤ bps) (h2 : bps ≤ 12000000) :
    SSC_BAUD bps = (12000000 / bps - 1) % 65536 := by
  have hb : 0 < bps := h1
  have hq1 : 1 ≤ 12000000 / bps := (Nat.one_le_div_iff hb).mpr h2
  have hq2 : 12000000 / bps ≤ 12000000 := Nat.div_le_self _ _
  unfold SSC_BAUD
  generalize 12000000 / bps = q at hq1 hq2 ⊢
  omega

/-- The divisor is at most 16 bits iff `bps ≥ 184`. -/
lemma div_le_counter_iff (bps : Nat) (h1 : 1 ≤ bps) :
    12000000 / bps ≤ 65536 ↔ 184 ≤ bps := by
  constructor
  · intro h
    by_contra hb
    push_neg at hb
    have hmono : 12000000 / 183 ≤ 12000000 / bps :=
      Nat.div_le_div_left (by omega) h1
    norm_num at hmono
    omega
  · intro h
    have hmono : 12000000 / bps ≤ 12000000 / 184 :=
      Nat.div_le_div_left h (by omega)
    norm_num at hmono
    omega

/-- Claim C1 (amended): for `1 ≤ bps ≤ 12000000` the macro returns the
untruncated divisor `floor(12000000/bps) - 1` reduced modulo `2^16`; the two
agree exactly on `bps ≥ 184`, and `SSC_BAUD 1000000 = 11`. -/
theorem C1_baud_divisor (bps : Nat) (h1 : 1 ≤ bps) (h2 : bps ≤ 12000000) :
    SSC_BAUD bps = (12000000 / bps - 1) % 65536
    ∧ (184 ≤ bps → SSC_BAUD bps = 12000000 / bps - 1)
    ∧ SSC_BAUD 1000000 = 11 := by
  refine ⟨SSC_BAUD_mod bps h1 h2, fun h184 => SSC_BAUD_eq_of_le bps h184 h2, by decide⟩

/-- Claim C1 witness at `bps = 1000000`. -/
theorem C1_baud_divisor_witness :
    SSC_BAUD 1000000 = (12000000 / 1000000 - 1) % 65536
    ∧ (184 ≤ 1000000 → SSC_BAUD 1000000 = 12000000 / 1000000 - 1)
    ∧ SSC_BAUD 1000000 = 11 :=
  C1_baud_divisor 1000000 (by decide) (by decide)

/-- Claim C1 counterexample: at `bps = 1` the macro returns `6911`, not the
claimed `floor(12000000/1) - 1 = 11999999` (the 16-bit cast truncates it). -/
theorem C1_baud_counterexample :
    SSC_BAUD 1 = 6911 ∧ 12000000 / 1 - 1 = 11999999
    ∧ SSC_BAUD 1 ≠ 12000000 / 1 - 1 := by decide

/-- Claim C6 (amended): on `184 ≤ bps1 ≤ bps2 ≤ 12000000` (where the divisor
fits the 16-bit counter) the macro is antitone: a lower bit rate never yields
a smaller divisor.  Below 184 bit/s the truncation breaks this. -/
theorem C6_baud_monotone (bps1 bps2 : Nat) (h1 : 184 ≤ bps1) (h12 : bps1 ≤ bps2)
    (h2 : bps2 ≤ 12000000) :
    SSC_BAUD bps2 ≤ SSC_BAUD bps1 := by
  rw [SSC_BAUD_eq_of_le bps1 h1 (le_trans h12 h2),
    SSC_BAUD_eq_of_le bps2 (le_trans h1 h12) h2]
  exact Nat.sub_le_sub_right (Nat.div_le_div_left h12 (by omega)) 1

/-- Claim C6 witness at `bps1 = 184`, `bps2 = 12000000`. -/
theorem C6_baud_monotone_witness :
    SSC_BAUD 12000000 ≤ SSC_BAUD 184 :=
  C6_baud_monotone 184 12000000 (by decide) (by decide) (by decide)

/-- Claim C6 counterexample: `1 ≤ 183 ≤ 184 ≤ 12000000`, yet
`SSC_BAUD 183 = 36 < 65216 = SSC_BAUD 184`: the 16-bit truncation at
`bps = 183` produces a smaller (faster) divisor for the lower bit rate. -/
theorem C6_baud_counterexample :
    1 ≤ 183 ∧ (183 : Nat) ≤ 184 ∧ (184 : Nat) ≤ 12000000
    ∧ SSC_BAUD 183 = 36 ∧ SSC_BAUD 184 = 65216
    ∧ SSC_BAUD 183 < SSC_BAUD 184 := by decide

/-- Claim C10: for `bps > 12000000` the unsigned division yields 0, the
`- 1` wraps in 32-bit unsigned arithmetic, and the 16-bit cast leaves
`0xFFFF`: the macro silently returns the largest (slowest) divisor and never
rejects an over-ceiling request. -/
theorem C10_baud_overflow (bps : Nat) (h : 12000000 < bps) :
    12000000 / bps = 0 ∧ SSC_BAUD bps = 65535 := by
  have h0 : 12000000 / bps = 0 := Nat.div_eq_of_lt h
  refine ⟨h0, ?_⟩
  unfold SSC_BAUD
  rw [h0]

/-- Claim C10 witness at `bps = 12000001`. -/
theorem C10_baud_overflow_witness :
    12000000 / 12000001 = 0 ∧ SSC_BAUD 12000001 = 65535 :=
  C10_baud_overflow 12000001 (by decide)

/-- On the documented domain (`1 ≤ width ≤ 8`, flags in `{0,1}`) the fields of
`SSC_CONF` land in disjoint bits, so the bitwise OR is plain addition. -/
lemma SSC_CONF_eq_add (width heading phase polarity duplex : Nat)
    (hw1 : 1 ≤ width) (hw8 : width ≤ 8) (hh : heading ≤ 1) (hp : phase ≤ 1)
    (hq : polarity ≤ 1) (hd : duplex ≤ 1) :
    SSC_CONF width heading phase polarity duplex =
      (width - 1) + 16 * heading + 32 * phase + 64 * polarity + 128 * duplex := by
  interval_cases width <;> interval_cases heading <;> interval_cases phase <;>
    interval_cases polarity <;> interval_cases duplex <;> rfl

/-- Claim C2: for `width ∈ [2,8]` and flags in `{0,1}` the macro stores
`width - 1` in bits 0-2 (the value modulo 8), and
`SSC_CONF 8 0 0 0 1 = 0x87`. -/
theorem C2_frame_pack (width heading phase polarity duplex : Nat)
    (hw2 : 2 ≤ width) (hw8 : width ≤ 8) (hh : heading ≤ 1) (hp : phase ≤ 1)
    (hq : polarity ≤ 1) (hd : duplex ≤ 1) :
    SSC_CONF width heading phase polarity duplex % 8 = width - 1
    ∧ SSC_CONF 8 0 0 0 1 = 135 := by
  rw [SSC_CONF_eq_add width heading phase polarity duplex (by omega) hw8 hh hp hq hd]
  exact ⟨by omega, by decide⟩

/-- Claim C2 witness at `width = 8`, `duplex = 1`, other flags 0. -/
theorem C2_frame_pack_witness :
    SSC_CONF 8 0 0 0 1 % 8 = 8 - 1 ∧ SSC_CONF 8 0 0 0 1 = 135 :=
  C2_frame_pack 8 0 0 0 1 (by decide) (by decide) (by decide) (by decide)
    (by decide) (by decide)

/-- Claim C3 (amended): for `width ∈ [2,8]` the stored width field equals
`width - 1` and lies in the range 1 to 7 (not 0 to 6), and each of the
remaining four fields occupies exactly one flag bit above the width field:
heading at bit 4, phase at bit 5, polarity at bit 6, duplex at bit 7, each
individually recoverable. -/
theorem C3_frame_fields (width heading phase polarity duplex : Nat)
    (hw2 : 2 ≤ width) (hw8 : width ≤ 8) (hh : heading ≤ 1) (hp : phase ≤ 1)
    (hq : polarity ≤ 1) (hd : duplex ≤ 1) :
    (SSC_CONF width heading phase polarity duplex % 8 = width - 1
      ∧ 1 ≤ width - 1 ∧ width - 1 ≤ 7)
    ∧ SSC_CONF width heading phase polarity duplex / 16 % 2 = heading
    ∧ SSC_CONF width heading phase polarity duplex / 32 % 2 = phase
    ∧ SSC_CONF width heading phase polarity duplex / 64 % 2 = polarity
    ∧ SSC_CONF width heading phase polarity duplex / 128 % 2 = duplex := by
  rw [SSC_CONF_eq_add width heading phase polarity duplex (by omega) hw8 hh hp hq hd]
  refine ⟨⟨by omega, by omega, by omega⟩, by omega, by omega, by omega, by omega⟩

/-- Claim C3 witness at `width = 5`, `heading = 1`, `phase = 0`,
`polarity = 1`, `duplex = 0`. -/
theorem C3_frame_fields_witness :
    (SSC_CONF 5 1 0 1 0 % 8 = 5 - 1 ∧ 1 ≤ 5 - 1 ∧ 5 - 1 ≤ 7)
    ∧ SSC_CONF 5 1 0 1 0 / 16 % 2 = 1
    ∧ SSC_CONF 5 1 0 1 0 / 32 % 2 = 0
    ∧ SSC_CONF 5 1 0 1 0 / 64 % 2 = 1
    ∧ SSC_CONF 5 1 0 1 0 / 128 % 2 = 0 :=
  C3_frame_fields 5 1 0 1 0 (by decide) (by decide) (by decide) (by decide)
    (by decide) (by decide)

/-- Claim C3 counterexample: at `width = 8` the stored width field is 7,
which is outside the claimed range 0 to 6. -/
theorem C3_frame_fields_counterexample :
    SSC_CONF 8 0 0 0 0 % 8 = 7 ∧ ¬ SSC_CONF 8 0 0 0 0 % 8 ≤ 6 := by decide

/-- Claim C5: every choice of one code per role combines additively (the
bitwise OR equals the sum), and the triple of role codes is uniquely
recoverable from the combined port-selection value. -/
theorem C5_ports_disjoint :
    ∀ a ∈ sscMrstCodes, ∀ b ∈ sscMtsrCodes, ∀ c ∈ sscSclkCodes,
      (a ||| b ||| c = a + b + c)
      ∧ ∀ a2 ∈ sscMrstCodes, ∀ b2 ∈ sscMtsrCodes, ∀ c2 ∈ sscSclkCodes,
          a ||| b ||| c = a2 ||| b2 ||| c2 → a = a2 ∧ b = b2 ∧ c = c2 := by
  decide

/-- Claim C5 witness at `SSC_MRST_P05 | SSC_MTSR_P04 | SSC_SCLK_P03`. -/
theorem C5_ports_disjoint_witness :
    ((1 : Nat) ||| 4 ||| 16 = 1 + 4 + 16)
    ∧ ∀ a2 ∈ sscMrstCodes, ∀ b2 ∈ sscMtsrCodes, ∀ c2 ∈ sscSclkCodes,
        (1 : Nat) ||| 4 ||| 16 = a2 ||| b2 ||| c2 → 1 = a2 ∧ 4 = b2 ∧ 16 = c2 :=
  C5_ports_disjoint 1 (by decide) 4 (by decide) 16 (by decide)

/-- Claim C7 (amended): the macro `SSC_CONF` performs no validation and never
reports an error; the checked encoder described by the spec succeeds exactly
for `width ∈ [2,8]`, and wherever it succeeds its value coincides with the
macro's.  Outside that range the macro still returns a packed value. -/
theorem C7_frame_no_validation (width heading phase polarity duplex : Nat)
    (hw1 : 1 ≤ width) (hh : heading ≤ 1) (hp : phase ≤ 1)
    (hq : polarity ≤ 1) (hd : duplex ≤ 1) :
    ((encodeFrameSpec width heading phase polarity duplex).isSome
      ↔ (2 ≤ width ∧ width ≤ 8))
    ∧ (∀ v, encodeFrameSpec width heading phase polarity duplex = some v →
        v = SSC_CONF width heading phase polarity duplex) := by
  unfold encodeFrameSpec
  by_cases hcond : 2 ≤ width ∧ width ≤ 8
  · rw [if_pos hcond]
    refine ⟨by simp [hcond], fun v hv => ?_⟩
    rw [SSC_CONF_eq_add width heading phase polarity duplex hw1 hcond.2 hh hp hq hd]
    exact (Option.some_inj.mp hv).symm
  · rw [if_neg hcond]
    exact ⟨by simp [hcond], fun v hv => by cases hv⟩

/-- Claim C7 witness at `width = 8` (in range) discharging the bounds. -/
theorem C7_frame_no_validation_witness :
    ((encodeFrameSpec 8 0 0 0 1).isSome ↔ (2 ≤ 8 ∧ 8 ≤ 8))
    ∧ (∀ v, encodeFrameSpec 8 0 0 0 1 = some v → v = SSC_CONF 8 0 0 0 1) :=
  C7_frame_no_validation 8 0 0 0 1 (by decide) (by decide) (by decide)
    (by decide) (by decide)

/-- Claim C7 counterexample: at the out-of-range `width = 9` the macro does
not fail; it returns the ordinary packed value 8, while the spec's checked
encoder reports the invalid-parameter condition. -/
theorem C7_frame_counterexample :
    SSC_CONF 9 0 0 0 0 = 8 ∧ encodeFrameSpec 9 0 0 0 0 = none := by decide

/-- Claim C8 (amended): the macro `SSC_BAUD` performs no validation and never
reports an error (over-ceiling and under-range requests are silently wrapped);
the checked encoder described by the spec succeeds exactly when
`184 ≤ bps` (divisor fits the 16-bit counter) and `bps` is at or below the
mode ceiling, and wherever it succeeds its value coincides with the macro's. -/
theorem C8_baud_no_validation (bps : Nat) (master : Bool) (h1 : 1 ≤ bps) :
    ((encodeBaudSpec bps master).isSome
      ↔ (184 ≤ bps ∧ bps ≤ (if master then 12000000 else 6000000)))
    ∧ (∀ v, encodeBaudSpec bps master = some v → v = SSC_BAUD bps) := by
  have hdiv := div_le_counter_iff bps h1
  unfold encodeBaudSpec
  by_cases hcond : 65535 < 12000000 / bps - 1 ∨ (if master then 12000000 else 6000000) < bps
  · rw [if_pos hcond]
    refine ⟨?_, fun v hv => by cases hv⟩
    simp only [Option.isSome_none, Bool.false_eq_true, false_iff]
    intro hgood
    rcases hcond with hbig | hceil
    · have h184 : 184 ≤ bps := hgood.1
      have := hdiv.mpr h184
      omega
    · omega
  · rw [if_neg hcond]
    push_neg at hcond
    have h184 : 184 ≤ bps := by
      apply hdiv.mp
      omega
    refine ⟨by simp [h184, hcond.2], fun v hv => ?_⟩
    have hceil : bps ≤ 12000000 := by
      rcases Bool.eq_false_or_eq_true master with hm | hm <;> rw [hm] at hcond <;>
        simp at hcond <;> omega
    rw [SSC_BAUD_eq_of_le bps h184 hceil]
    exact (Option.some_inj.mp hv).symm

/-- Claim C8 witness at `bps = 1000000` in master mode. -/
theorem C8_baud_no_validation_witness :
    ((encodeBaudSpec 1000000 true).isSome
      ↔ (184 ≤ 1000000 ∧ 1000000 ≤ (if true then 12000000 else 6000000)))
    ∧ (∀ v, encodeBaudSpec 1000000 true = some v → v = SSC_BAUD 1000000) :=
  C8_baud_no_validation 1000000 true (by decide)

/-- Claim C8 counterexample: at `bps = 12000001` (above the master-mode
ceiling) the macro reports no error; it silently returns the divisor
`0xFFFF`, while the spec's checked encoder reports the invalid-parameter
condition.  Likewise at `bps = 183` the divisor (65572) exceeds the 16-bit
counter, yet the macro silently returns the wrapped value 36. -/
theorem C8_baud_counterexample :
    SSC_BAUD 12000001 = 65535 ∧ encodeBaudSpec 12000001 true = none
    ∧ SSC_BAUD 183 = 36 ∧ encodeBaudSpec 183 true = none := by decide

/-- The three lifecycle phases of the peripheral (spec §3): `Disabled` (safe
to reconfigure), `Enabled-Idle` (ready to transceive), `Enabled-Busy`
(mid-transfer). -/
inductive PeripheralState
  | Disabled
  | EnabledIdle
  | EnabledBusy
deriving DecidableEq, Repr

/-- Observable per-byte events of the transceive engine: `tx i b` records
that byte `b` was loaded from buffer position `i` into the shift register and
shifted out; `done i` records the hardware completion flag for position `i`,
at which point the received byte has been written back into position `i`. -/
inductive SSCEvent
  | tx (i b : Nat)
  | done (i : Nat)
deriving DecidableEq, Repr

/-- Recognizes per-byte completion events. -/
def SSCEvent.isDone : SSCEvent → Bool
  | SSCEvent.done _ => true
  | _ => false

/-- Modelled from the spec: the implementation file `hsk_ssc.c` is not part of
the repository (the header only declares `void hsk_ssc_talk(char xdata *,
ubyte)`), so the transceive engine is modelled from spec §4.4 in its blocking
realization.  `rx j` is the byte the wire delivers during the `j`-th unit
transfer.  Processing byte `i` with `n + 1` bytes remaining: the byte at
position `i` is transmitted, position `i` is overwritten with the received
byte, and the peripheral stays `Enabled-Busy` after each event except the
final completion, after which it is `Enabled-Idle` again.  The result pairs
the final buffer with the trace of events, each annotated with the
peripheral phase right after it. -/
def hsk_ssc_talkFrom (rx : Nat → Nat) :
    Nat → List Nat → Nat → List Nat × List (SSCEvent × PeripheralState)
  | 0, buf, _ => (buf, [])
  | n + 1, buf, i =>
      let rest := hsk_ssc_talkFrom rx n (buf.set i (rx i)) (i + 1)
      (rest.1,
        (SSCEvent.tx i (buf.getD i 0), PeripheralState.EnabledBusy) ::
          (SSCEvent.done i,
            if n = 0 then PeripheralState.EnabledIdle else PeripheralState.EnabledBusy) ::
          rest.2)

/-- Modelled from the spec: `hsk_ssc_talk(buffer, len)` starting from
`Enabled-Idle`, run to full completion on all `len` positions. -/
def hsk_ssc_talk (rx : Nat → Nat) (buffer : List Nat) (len : Nat) :
    List Nat × List (SSCEvent × PeripheralState) :=
  hsk_ssc_talkFrom rx len buffer 0

/-- `getD` after an in-range `set` at the same index. -/
lemma getD_set_self (l : List Nat) (i a : Nat) (h : i < l.length) :
    (l.set i a).getD i 0 = a := by
  simp [List.getD_eq_getElem?_getD, List.getElem?_set_self h]

/-- `getD` after a `set` at a different index. -/
lemma getD_set_ne (l : List Nat) (i j a : Nat) (h : i ≠ j) :
    (l.set i a).getD j 0 = l.getD j 0 := by
  simp [List.getD_eq_getElem?_getD, List.getElem?_set_ne h]

/-- The transceive loop preserves the buffer length. -/
lemma talkFrom_fst_length (rx : Nat → Nat) :
    ∀ (n i : Nat) (buf : List Nat),
      ((hsk_ssc_talkFrom rx n buf i).1).length = buf.length := by
  intro n
  induction n with
  | zero => intro i buf; rfl
  | succ n ih =>
      intro i buf
      simp only [hsk_ssc_talkFrom]
      rw [ih (i + 1) (buf.set i (rx i)), List.length_set]

/-- Pointwise description of the final buffer: positions `[i, i + n)` hold the
received bytes, all others are untouched. -/
lemma talkFrom_fst_getD (rx : Nat → Nat) :
    ∀ (n i : Nat) (buf : List Nat) (j : Nat),
      ((hsk_ssc_talkFrom rx n buf i).1).getD j 0 =
        if i ≤ j ∧ j < i + n ∧ j < buf.length then rx j else buf.getD j 0 := by
  intro n
  induction n with
  | zero =>
      intro i buf j
      rw [if_neg (by omega)]
      rfl
  | succ n ih =>
      intro i buf j
      simp only [hsk_ssc_talkFrom]
      rw [ih (i + 1) (buf.set i (rx i)) j, List.length_set]
      by_cases hij : i = j
      · subst hij
        rw [if_neg (by omega)]
        by_cases hlen : i < buf.length
        · rw [getD_set_self buf i (rx i) hlen, if_pos ⟨le_refl i, by omega, hlen⟩]
        · rw [if_neg (by omega), List.set_eq_of_length_le (by omega)]
      · rw [getD_set_ne buf i j (rx i) hij]
        split_ifs <;> first | rfl | omega

/-- The event trace has exactly two events per processed byte. -/
lemma talkFrom_snd_length (rx : Nat → Nat) :
    ∀ (n i : Nat) (buf : List Nat),
      ((hsk_ssc_talkFrom rx n buf i).2).length = 2 * n := by
  intro n
  induction n with
  | zero => intro i buf; rfl
  | succ n ih =>
      intro i buf
      simp only [hsk_ssc_talkFrom, List.length_cons]
      rw [ih (i + 1) (buf.set i (rx i))]
      omega

/-- Congruence for `flatMap` over a list of indices. -/
lemma flatMap_congr_local (l : List Nat) (f g : Nat → List SSCEvent)
    (h : ∀ j ∈ l, f j = g j) : l.flatMap f = l.flatMap g := by
  induction l with
  | nil => rfl
  | cons a l ih =>
      rw [List.flatMap_cons, List.flatMap_cons, h a (by simp),
        ih fun j hj => h j (by simp [hj])]

/-- The events of the trace, in order: for each position `j` from `i` up,
first the transmission of the original byte at `j`, then its completion. -/
lemma talkFrom_snd_map (rx : Nat → Nat) :
    ∀ (n i : Nat) (buf : List Nat),
      ((hsk_ssc_talkFrom rx n buf i).2).map Prod.fst =
        (List.range' i n).flatMap
          (fun j => [SSCEvent.tx j (buf.getD j 0), SSCEvent.done j]) := by
  intro n
  induction n with
  | zero => intro i buf; rfl
  | succ n ih =>
      intro i buf
      simp only [hsk_ssc_talkFrom, List.map_cons, List.range'_succ, List.flatMap_cons]
      have hcong : (List.range' (i + 1) n).flatMap
          (fun j => [SSCEvent.tx j ((buf.set i (rx i)).getD j 0), SSCEvent.done j]) =
          (List.range' (i + 1) n).flatMap
            (fun j => [SSCEvent.tx j (buf.getD j 0), SSCEvent.done j]) := by
        apply flatMap_congr_local
        intro j hj
        rcases List.mem_range'.mp hj with ⟨k, hk, rfl⟩
        rw [getD_set_ne buf i (i + 1 + 1 * k) (rx i) (by omega)]
      rw [ih (i + 1) (buf.set i (rx i)), hcong]
      rfl

/-- Counting completions in the canonical event list: one per position. -/
lemma count_done_flatMap (f : Nat → Nat) :
    ∀ (l : List Nat),
      ((l.flatMap fun j => [SSCEvent.tx j (f j), SSCEvent.done j]).filter
        SSCEvent.isDone).length = l.length := by
  intro l
  induction l with
  | nil => rfl
  | cons a l ih =>
      rw [List.flatMap_cons, List.filter_append, List.length_append, ih,
        show List.filter SSCEvent.isDone [SSCEvent.tx a (f a), SSCEvent.done a] =
          [SSCEvent.done a] from rfl]
      simp only [List.length_cons, List.length_nil]
      omega

/-- Phase annotations along the trace: `Enabled-Busy` after every event except
the very last completion, after which the peripheral is `Enabled-Idle`. -/
lemma talkFrom_snd_phase (rx : Nat → Nat) :
    ∀ (n i : Nat) (buf : List Nat) (k : Nat), k < 2 * n →
      (((hsk_ssc_talkFrom rx n buf i).2).getD k
          (SSCEvent.done 0, PeripheralState.EnabledIdle)).2 =
        if k + 1 = 2 * n then PeripheralState.EnabledIdle
        else PeripheralState.EnabledBusy := by
  intro n
  induction n with
  | zero => intro i buf k hk; omega
  | succ n ih =>
      intro i buf k hk
      match k with
      | 0 =>
          rw [if_neg (by omega)]
          rfl
      | 1 =>
          simp only [hsk_ssc_talkFrom, List.getD_cons_succ, List.getD_cons_zero]
          by_cases hn : n = 0
          · subst hn
            rw [if_pos rfl, if_pos (by omega)]
          · rw [if_neg hn, if_neg (by omega)]
      | k + 2 =>
          simp only [hsk_ssc_talkFrom, List.getD_cons_succ]
          rw [ih (i + 1) (buf.set i (rx i)) k (by omega)]
          rw [if_congr (show k + 1 = 2 * n ↔ k + 2 + 1 = 2 * (n + 1) by omega) rfl rfl]

/-- Claim C4: a `hsk_ssc_talk(buffer, len)` call from `Enabled-Idle` that runs
to full completion produces exactly `len` completion events; each position
`i < len` is first transmitted (with its original byte) and then completed,
in increasing order with no position skipped or duplicated; every position
`i < len` is overwritten in place with the `i`-th received byte and positions
beyond `len` are untouched; and the phase after each event is `Enabled-Busy`
except after the last byte's completion, which returns it to `Enabled-Idle`. -/
theorem C4_talk_transceive (rx : Nat → Nat) (buffer : List Nat) (len : Nat)
    (hlen : len ≤ buffer.length) :
    (((hsk_ssc_talk rx buffer len).2).filter (fun e => SSCEvent.isDone e.1)).length = len
    ∧ ((hsk_ssc_talk rx buffer len).2).map Prod.fst =
        (List.range len).flatMap
          (fun i => [SSCEvent.tx i (buffer.getD i 0), SSCEvent.done i])
    ∧ ((hsk_ssc_talk rx buffer len).1).length = buffer.length
    ∧ (∀ j, j < len → ((hsk_ssc_talk rx buffer len).1).getD j 0 = rx j)
    ∧ (∀ j, len ≤ j → ((hsk_ssc_talk rx buffer len).1).getD j 0 = buffer.getD j 0)
    ∧ ((hsk_ssc_talk rx buffer len).2).length = 2 * len
    ∧ (∀ k, k < 2 * len →
        (((hsk_ssc_talk rx buffer len).2).getD k
            (SSCEvent.done 0, PeripheralState.EnabledIdle)).2 =
          if k + 1 = 2 * len then PeripheralState.EnabledIdle
          else PeripheralState.EnabledBusy) := by
  have hmap := talkFrom_snd_map rx len 0 buffer
  rw [← List.range_eq_range'] at hmap
  unfold hsk_ssc_talk
  refine ⟨?_, hmap, talkFrom_fst_length rx len 0 buffer, ?_, ?_,
    talkFrom_snd_length rx len 0 buffer, fun k hk => talkFrom_snd_phase rx len 0 buffer k hk⟩
  · have hfm : ((((hsk_ssc_talkFrom rx len buffer 0).2).map Prod.fst).filter
        SSCEvent.isDone).length =
        (((hsk_ssc_talkFrom rx len buffer 0).2).filter
          (fun e => SSCEvent.isDone e.1)).length := by
      rw [List.filter_map, List.length_map]
      rfl
    rw [← hfm, hmap, count_done_flatMap (fun i => buffer.getD i 0) (List.range len),
      List.length_range]
  · intro j hj
    rw [talkFrom_fst_getD rx len 0 buffer j, if_pos ⟨Nat.zero_le j, by omega, by omega⟩]
  · intro j hj
    rw [talkFrom_fst_getD rx len 0 buffer j, if_neg (by omega)]

/-- Claim C4 witness: a concrete two-byte exchange, `buffer = [170, 187]`,
`rx = fun i => i + 1`. -/
theorem C4_talk_transceive_witness :
    (((hsk_ssc_talk (fun i => i + 1) [170, 187] 2).2).filter
        (fun e => SSCEvent.isDone e.1)).length = 2
    ∧ ((hsk_ssc_talk (fun i => i + 1) [170, 187] 2).2).map Prod.fst =
        (List.range 2).flatMap
          (fun i => [SSCEvent.tx i (([170, 187] : List Nat).getD i 0), SSCEvent.done i])
    ∧ ((hsk_ssc_talk (fun i => i + 1) [170, 187] 2).1).length =
        ([170, 187] : List Nat).length
    ∧ (∀ j, j < 2 →
        ((hsk_ssc_talk (fun i => i + 1) [170, 187] 2).1).getD j 0 = j + 1)
    ∧ (∀ j, 2 ≤ j →
        ((hsk_ssc_talk (fun i => i + 1) [170, 187] 2).1).getD j 0 =
          ([170, 187] : List Nat).getD j 0)
    ∧ ((hsk_ssc_talk (fun i => i + 1) [170, 187] 2).2).length = 2 * 2
    ∧ (∀ k, k < 2 * 2 →
        (((hsk_ssc_talk (fun i => i + 1) [170, 187] 2).2).getD k
            (SSCEvent.done 0, PeripheralState.EnabledIdle)).2 =
          if k + 1 = 2 * 2 then PeripheralState.EnabledIdle
          else PeripheralState.EnabledBusy) :=
  C4_talk_transceive (fun i => i + 1) [170, 187] 2 (by decide)

/-- Modelled from the spec: `hsk_ssc_enable` (implementation file absent from
the repository): `Disabled → Enabled-Idle`; a no-op if already enabled. -/
def hsk_ssc_enable : PeripheralState → PeripheralState
  | PeripheralState.Disabled => PeripheralState.EnabledIdle
  | s => s

/-- Modelled from the spec: `hsk_ssc_disable` (implementation file absent
from the repository): any state → `Disabled`, aborting any in-flight
transfer. -/
def hsk_ssc_disable (_ : PeripheralState) : PeripheralState :=
  PeripheralState.Disabled

/-- Modelled from the spec: the peripheral states reachable between API calls
in the blocking realization.  `init` leaves the peripheral `Disabled`;
`enable` and `disable` act as above; a completed `talk` starts and ends in
`Enabled-Idle`, so it adds no further states. -/
inductive SSCReachable : PeripheralState → Prop
  | init : SSCReachable PeripheralState.Disabled
  | enable {s : PeripheralState} : SSCReachable s → SSCReachable (hsk_ssc_enable s)
  | disable {s : PeripheralState} : SSCReachable s → SSCReachable (hsk_ssc_disable s)

/-- Between API calls the peripheral is `Disabled` or `Enabled-Idle`. -/
lemma reachable_cases (s : PeripheralState) (h : SSCReachable s) :
    s = PeripheralState.Disabled ∨ s = PeripheralState.EnabledIdle := by
  induction h with
  | init => left; rfl
  | enable _ ih => rcases ih with h1 | h1 <;> subst h1 <;> right <;> rfl
  | disable _ _ => left; rfl

/-- Claim C9: on every reachable peripheral state, `enable` twice equals
`enable` once (landing in `Enabled-Idle`) and `disable` twice equals
`disable` once (landing in `Disabled`). -/
theorem C9_enable_disable_idempotent (s : PeripheralState) (h : SSCReachable s) :
    (hsk_ssc_enable (hsk_ssc_enable s) = hsk_ssc_enable s
      ∧ hsk_ssc_enable s = PeripheralState.EnabledIdle)
    ∧ (hsk_ssc_disable (hsk_ssc_disable s) = hsk_ssc_disable s
      ∧ hsk_ssc_disable s = PeripheralState.Disabled) := by
  rcases reachable_cases s h with h1 | h1 <;> subst h1 <;> exact ⟨⟨rfl, rfl⟩, rfl, rfl⟩

/-- Claim C9 witness at the initial state `Disabled`. -/
theorem C9_enable_disable_idempotent_witness :
    (hsk_ssc_enable (hsk_ssc_enable PeripheralState.Disabled) =
        hsk_ssc_enable PeripheralState.Disabled
      ∧ hsk_ssc_enable PeripheralState.Disabled = PeripheralState.EnabledIdle)
    ∧ (hsk_ssc_disable (hsk_ssc_disable PeripheralState.Disabled) =
        hsk_ssc_disable PeripheralState.Disabled
      ∧ hsk_ssc_disable PeripheralState.Disabled = PeripheralState.Disabled) :=
  C9_enable_disable_idempotent PeripheralState.Disabled SSCReachable.init

end HskSsc
